import Mathlib

/-!
Verification of the pre-commit frontmatter hook (pre-commit.py).

The script is embedded shallowly over `List Char`:
* `get_frontmatter` models the regex search for a block between two
  occurrences of the delimiter line start, with DOTALL and a lazy group;
* `subKey` models the substitution performed for one key by
  `re.sub(rf'{key}:\s*.*', f'{key}: {value}', frontmatter)` as a
  left-to-right scan state machine (the whitespace class includes the
  newline, the dot class does not);
* `replaceAll` models Python `str.replace` (all non-overlapping
  occurrences, left to right, with the insertion behaviour for an empty
  pattern);
* `parseFm` models the per-line dictionary built with
  `re.match(r'(\w+):\s*(.*)', line)` and `.strip` of double quotes,
  later entries overwriting earlier ones;
* `processFile` models the per-file pipeline of `main`, with the
  generated uuid and the current UTC time passed in as parameters;
* `pyMain` models the try/except wrapper of `main`, with every external
  process invocation represented by an oracle that may raise.
-/

/-- Character list of a string literal. -/
def str (s : String) : List Char := s.data

/-- The characters Python `str.split`, `\s` and `str.isspace` treat as
whitespace (ASCII part). -/
def pyIsSpace (c : Char) : Bool :=
  c == ' ' || c == '\t' || c == '\n' || c == '\r' ||
  c == Char.ofNat 11 || c == Char.ofNat 12

/-- The characters matched by `\w` (ASCII part). -/
def isWordChar (c : Char) : Bool :=
  c.isAlpha || c.isDigit || c == '_'

/-- `prefixB p s` is true when `p` is a prefix of `s` (Python
`startswith`). -/
def prefixB : List Char → List Char → Bool
  | [], _ => true
  | _ :: _, [] => false
  | a :: as, b :: bs => a == b && prefixB as bs

/-- `suffixB p s` is true when `p` is a suffix of `s` (Python
`endswith`). -/
def suffixB (p s : List Char) : Bool :=
  prefixB p.reverse s.reverse

/-- Number of positions of `s` at which `pat` occurs as a substring
(occurrences at every starting index are counted). -/
def numOcc (pat : List Char) : List Char → Nat
  | [] => 0
  | c :: r => (if prefixB pat (c :: r) then 1 else 0) + numOcc pat r

/-- Index of the first occurrence of `pat` in `s`, if any
(`re.search` for a literal pattern). -/
def findPat (pat : List Char) : List Char → Option Nat
  | [] => none
  | c :: r => if prefixB pat (c :: r) then some 0 else (findPat pat r).map (· + 1)

/-- Accumulator pass of Python `str.split()` with no argument: maximal
runs of non-whitespace characters, empty words discarded. -/
def wordsGo (cur : List Char) : List Char → List (List Char)
  | [] => if cur.isEmpty then [] else [cur.reverse]
  | c :: r =>
    if pyIsSpace c then
      if cur.isEmpty then wordsGo [] r else cur.reverse :: wordsGo [] r
    else
      wordsGo (c :: cur) r

/-- Python `text.split()`. -/
def pySplitW (s : List Char) : List (List Char) := wordsGo [] s

/-- `calculate_reading_time` from the source:
`int(len(text.split()) / 200) + 1`. -/
def calculate_reading_time (text : List Char) : Nat :=
  (pySplitW text).length / 200 + 1

/-- Specification-side word counter: a single pass that counts the
maximal whitespace-separated words, carrying a flag telling whether the
scan is inside a word. -/
def wcAux : Bool → List Char → Nat
  | _, [] => 0
  | inw, c :: r =>
    if pyIsSpace c then wcAux false r
    else (if inw then 0 else 1) + wcAux true r

/-- Number of whitespace-separated words of a text. -/
def wordCount (s : List Char) : Nat := wcAux false s

/-- Accumulator pass of Python `str.splitlines` restricted to the
newline character: a trailing newline produces no empty final line. -/
def linesGo (cur : List Char) : List Char → List (List Char)
  | [] => if cur.isEmpty then [] else [cur.reverse]
  | c :: r =>
    if c == '\n' then cur.reverse :: linesGo [] r
    else linesGo (c :: cur) r

/-- Python `s.splitlines()` (newline separators). -/
def splitLinesPy (s : List Char) : List (List Char) := linesGo [] s

/-- Python `s.strip` of the double quote character: all leading and
trailing quote characters removed. -/
def stripQuotes (s : List Char) : List Char :=
  ((s.dropWhile (· == '"')).reverse.dropWhile (· == '"')).reverse

/-- One line of the frontmatter parsed as in `main`:
`re.match(r'(\w+):\s*(.*)', line)` with the value stripped of double
quotes. -/
def parseLine (l : List Char) : Option (List Char × List Char) :=
  let key := l.takeWhile isWordChar
  if key.isEmpty then none
  else
    match l.drop key.length with
    | ':' :: rest => some (key, stripQuotes (rest.dropWhile pyIsSpace))
    | _ => none

/-- Lookup in an association list built by appending, later entries
overwriting earlier ones (a Python dict). -/
def dlookup (d : List (List Char × List Char)) (k : List Char) : Option (List Char) :=
  d.foldl (fun acc kv => if kv.1 == k then some kv.2 else acc) none

/-- The frontmatter dictionary built by `main` from the frontmatter
string, line by line. -/
def parseFm (fm : List Char) : List (List Char × List Char) :=
  (splitLinesPy fm).foldl
    (fun d l =>
      match parseLine l with
      | some kv => d ++ [kv]
      | none => d)
    []

/-- The delimiter searched by `re.search(r'---\n(.*?)---\n', ...)`. -/
def fmDelim : List Char := str "---\n"

/-- The group captured by `re.search(r'---\n(.*?)---\n', content, re.DOTALL)`:
the text between the first delimiter occurrence and the next one, if both
exist. Distinct occurrences of the delimiter can never overlap, so the
leftmost-lazy regex match is exactly this. -/
def extractFmOpt (content : List Char) : Option (List Char) :=
  match findPat fmDelim content with
  | none => none
  | some i =>
    let rest := content.drop (i + fmDelim.length)
    match findPat fmDelim rest with
    | none => none
    | some j => some (rest.take j)

/-- `get_frontmatter` from the source: the captured group, or the empty
string when the pattern does not match. -/
def get_frontmatter (content : List Char) : List Char :=
  (extractFmOpt content).getD []

/-- Phase of the substitution scan for `re.sub(rf'{key}:\s*.*', repl, s)`:
`scan` looks for the pattern, `skip k` discards the current character and
`k` further pattern characters, `ws` discards the `\s*` run, `line`
discards the `.*` run. -/
inductive SubPhase where
  | scan : SubPhase
  | skip : Nat → SubPhase
  | ws : SubPhase
  | line : SubPhase

/-- Phase after discarding one more character of a match: `skip 0`
moves on to the whitespace run. -/
def mkSkip : Nat → SubPhase
  | 0 => SubPhase.ws
  | n + 1 => SubPhase.skip n

/-- Scan machine for `re.sub(pat-literal ++ \s* ++ .*, repl, s)`: a match
consumes the literal, then a maximal whitespace run (newlines included),
then the rest of the line; scanning resumes at the first unconsumed
character, so the terminating newline is re-examined for a new match. -/
def subKeyGo (pat repl : List Char) : SubPhase → List Char → List Char
  | _, [] => []
  | SubPhase.scan, c :: r =>
    if prefixB pat (c :: r) then
      repl ++ subKeyGo pat repl (mkSkip (pat.length - 1)) r
    else
      c :: subKeyGo pat repl SubPhase.scan r
  | SubPhase.skip k, _ :: r => subKeyGo pat repl (mkSkip k) r
  | SubPhase.ws, c :: r =>
    if pyIsSpace c then subKeyGo pat repl SubPhase.ws r
    else subKeyGo pat repl SubPhase.line r
  | SubPhase.line, c :: r =>
    if c = '\n' then
      if prefixB pat (c :: r) then
        repl ++ subKeyGo pat repl (mkSkip (pat.length - 1)) r
      else
        c :: subKeyGo pat repl SubPhase.scan r
    else
      subKeyGo pat repl SubPhase.line r

/-- `re.sub(rf'{key}:\s*.*', f'{key}: {value}', s)` for a literal key. -/
def subKey (key val s : List Char) : List Char :=
  subKeyGo (key ++ str ":") (key ++ str ": " ++ val) SubPhase.scan s

/-- Phase after discarding one more character of a `str.replace` match:
`none` resumes scanning. -/
def mkRSkip : Nat → Option Nat
  | 0 => none
  | n + 1 => some n

/-- Scan machine for Python `str.replace` with a nonempty pattern. -/
def replGo (pat repl : List Char) : Option Nat → List Char → List Char
  | _, [] => []
  | none, c :: r =>
    if prefixB pat (c :: r) then
      repl ++ replGo pat repl (mkRSkip (pat.length - 1)) r
    else
      c :: replGo pat repl none r
  | some k, _ :: r => replGo pat repl (mkRSkip k) r

/-- Python `s.replace('', repl)`: the replacement is inserted at every
position, including both ends. -/
def replEmptyIns (repl : List Char) : List Char → List Char
  | [] => repl
  | c :: r => repl ++ c :: replEmptyIns repl r

/-- Python `s.replace(pat, repl)`. -/
def replaceAll (pat repl s : List Char) : List Char :=
  match pat with
  | [] => replEmptyIns repl s
  | _ :: _ => replGo pat repl none s

/-- `update_frontmatter` from the source: when the frontmatter regex
matches, each update key is substituted inside the captured group and the
old group is replaced (everywhere) by the new one in the whole content;
otherwise the file is left untouched. -/
def update_frontmatter (content : List Char) (ups : List (List Char × List Char)) : List Char :=
  match extractFmOpt content with
  | none => content
  | some fm =>
    let fm2 := ups.foldl (fun f kv => subKey kv.1 kv.2 f) fm
    replaceAll fm fm2 content

/-- Decimal digits of a natural number (Python `str(int)` for a
non-negative value), with structural fuel. -/
def natDigitsAux : Nat → Nat → List Char
  | 0, _ => []
  | f + 1, n =>
    if n < 10 then [Char.ofNat (48 + n)]
    else natDigitsAux f (n / 10) ++ [Char.ofNat (48 + n % 10)]

/-- Decimal representation of a natural number. -/
def natDigits (n : Nat) : List Char := natDigitsAux (n + 1) n

/-- Filter used on the `git diff --cached --name-status` lines:
`line.startswith('M') and line.endswith('.mdx')`. -/
def lineSelected (l : List Char) : Bool :=
  prefixB (str "M") l && suffixB (str ".mdx") l

/-- `line.split()[1]`: the second whitespace-separated field of a
name-status line. -/
def lineFile (l : List Char) : List Char :=
  ((pySplitW l)[1]?).getD []

/-- The list comprehension of `main` selecting the staged files. -/
def stagedFiles (ls : List (List Char)) : List (List Char) :=
  (ls.filter lineSelected).map lineFile

/-- The body of the per-file loop of `main` up to (not including) the
reading-time update: the dictionary is parsed once from the initial
content; a missing `id` triggers an update with the generated uuid; the
draft states `false` and `first` trigger their updates. -/
def preRT (uuid now content : List Char) : List Char :=
  let d := parseFm (get_frontmatter content)
  let c1 :=
    if (dlookup d (str "id")).isSome then content
    else update_frontmatter content [(str "id", uuid)]
  if dlookup d (str "draft") = some (str "false") then
    update_frontmatter c1 [(str "modDatetime", now ++ str "Z")]
  else if dlookup d (str "draft") = some (str "first") then
    update_frontmatter c1 [(str "draft", str "false"), (str "modDatetime", str "")]
  else c1

/-- The final step of the per-file loop: the file is re-read whole and
`readingTime` is updated with the reading time of that entire content. -/
def rtUpdate (c : List Char) : List Char :=
  update_frontmatter c [(str "readingTime", natDigits (calculate_reading_time c))]

/-- The whole per-file pipeline of `main` as a pure content transform;
`uuid` stands for `str(uuid4())` and `now` for
`datetime.utcnow().isoformat()`. -/
def processFile (uuid now content : List Char) : List Char :=
  rtUpdate (preRT uuid now content)

/-- A frontmatter fragment shaped around one key line: some prefix `a`,
then the pattern `key:`, a space, a value `v0 :: v1`, a newline and the
rest. -/
def keyLine (key a : List Char) (v0 : Char) (v1 rest : List Char) : List Char :=
  a ++ (key ++ str ":") ++ (' ' :: v0 :: (v1 ++ '\n' :: rest))

/-- The same fragment after the substitution rewrote the key line with a
new value. -/
def keyLineSubst (key val a rest : List Char) : List Char :=
  a ++ (key ++ str ": " ++ val) ++ '\n' :: rest

/-- A Python exception as far as the hook distinguishes them:
`subprocess.CalledProcessError` or anything else. -/
inductive PyExc where
  | cpe : List Char → PyExc
  | other : List Char → PyExc
deriving DecidableEq

/-- Oracles for the external world of `main`: the outcome of each
process invocation, the generated uuids and the current time. -/
structure Calls where
  gitDiffLines : Except PyExc (List (List Char))
  gitAdd : List Char → Except PyExc Unit
  gitUpdateIndex : Except PyExc Unit
  bunLint : Except PyExc Unit
  uuidFor : List Char → List Char
  nowStr : List Char

/-- The file system as path-to-content associations, later writes
overwriting earlier ones. -/
abbrev FS := List (List Char × List Char)

/-- Reading a file: a missing path raises (an `OSError`, not a
called-process error). -/
def readF (fs : FS) (p : List Char) : Except PyExc (List Char) :=
  match dlookup fs p with
  | some v => Except.ok v
  | none => Except.error (PyExc.other (str "No such file: " ++ p))

/-- Writing a file. -/
def fsSet (fs : FS) (p v : List Char) : FS := fs ++ [(p, v)]

/-- The body of the per-file loop of `main` with its interleaved
`git add` invocations, any of which may raise. -/
def fileStep (o : Calls) (fs : FS) (f : List Char) : Except PyExc FS := do
  let content ← readF fs f
  let d := parseFm (get_frontmatter content)
  let (fs1, c1) ←
    if (dlookup d (str "id")).isSome then pure (fs, content)
    else do
      let c := update_frontmatter content [(str "id", o.uuidFor f)]
      let fs := fsSet fs f c
      o.gitAdd f
      pure (fs, c)
  let (fs2, c2) ←
    if dlookup d (str "draft") = some (str "false") then do
      let c := update_frontmatter c1 [(str "modDatetime", o.nowStr ++ str "Z")]
      let fs := fsSet fs1 f c
      o.gitAdd f
      pure (fs, c)
    else if dlookup d (str "draft") = some (str "first") then do
      let c := update_frontmatter c1 [(str "draft", str "false"), (str "modDatetime", str "")]
      let fs := fsSet fs1 f c
      o.gitAdd f
      pure (fs, c)
    else pure (fs1, c1)
  let c3 := rtUpdate c2
  let fs3 := fsSet fs2 f c3
  o.gitAdd f
  pure fs3

/-- The whole body of the `try` block of `main`. -/
def mainBody (o : Calls) (fs : FS) : Except PyExc FS := do
  let ls ← o.gitDiffLines
  let fs ← (stagedFiles ls).foldlM (fun a f => fileStep o a f) fs
  o.gitUpdateIndex
  o.bunLint
  pure fs

/-- `main` with its two except clauses: a raised exception is turned
into a printed message (`some msg`), a clean run prints nothing. -/
def pyMain (o : Calls) (fs : FS) : Except PyExc (Option (List Char)) :=
  match mainBody o fs with
  | Except.ok _ => Except.ok none
  | Except.error (PyExc.cpe m) => Except.ok (some (str "Error: " ++ m))
  | Except.error (PyExc.other m) =>
      Except.ok (some (str "An unexpected error occurred: " ++ m))

/-- An oracle whose `git diff` invocation fails with a called-process
error. -/
def failingCalls : Calls where
  gitDiffLines := Except.error (PyExc.cpe (str "boom"))
  gitAdd := fun _ => Except.ok ()
  gitUpdateIndex := Except.ok ()
  bunLint := Except.ok ()
  uuidFor := fun _ => str "u"
  nowStr := str "t"

/-! ### Prefix and occurrence lemmas -/

theorem prefixB_append (p t : List Char) : prefixB p (p ++ t) = true := by
  induction p with
  | nil => rfl
  | cons a as ih => simp [prefixB, ih]

theorem prefixB_self (p : List Char) : prefixB p p = true := by
  simpa using prefixB_append p []

theorem prefixB_of_append_le (p : List Char) :
    ∀ x y : List Char, prefixB p (x ++ y) = true → p.length ≤ x.length →
      prefixB p x = true := by
  induction p with
  | nil => intro x y _ _; rfl
  | cons a p ih =>
    intro x y h hl
    cases x with
    | nil => simp at hl
    | cons b x =>
      simp only [List.cons_append, prefixB, Bool.and_eq_true] at h ⊢
      refine ⟨h.1, ih x y h.2 ?_⟩
      simp only [List.length_cons] at hl
      omega

theorem append_drop_of_prefixB (p : List Char) :
    ∀ s : List Char, prefixB p s = true → s = p ++ s.drop p.length := by
  induction p with
  | nil => intro s _; simp
  | cons a p ih =>
    intro s h
    cases s with
    | nil => simp [prefixB] at h
    | cons b s =>
      simp only [prefixB, Bool.and_eq_true, beq_iff_eq] at h
      obtain ⟨rfl, h2⟩ := h
      simp only [List.length_cons, List.drop_succ_cons, List.cons_append]
      exact congrArg (a :: ·) (ih s h2)

theorem numOcc_le_append (pat s t : List Char) :
    numOcc pat t ≤ numOcc pat (s ++ t) := by
  induction s with
  | nil => simp
  | cons c s ih =>
    simp only [List.cons_append, List.append_eq, numOcc]
    omega

theorem numOcc_append_pat_pos (pat : List Char) (hp : pat ≠ []) (a : List Char) :
    1 ≤ numOcc pat (a ++ pat) := by
  induction a with
  | nil =>
    cases pat with
    | nil => exact absurd rfl hp
    | cons p pr =>
      simp only [List.nil_append, numOcc]
      rw [prefixB_self]
      simp
  | cons c a ih =>
    simp only [List.cons_append, List.append_eq, numOcc]
    omega

theorem numOcc_drop_le (pat s : List Char) (n : Nat) :
    numOcc pat (s.drop n) ≤ numOcc pat s := by
  conv_rhs => rw [← List.take_append_drop n s]
  exact numOcc_le_append pat _ _

/-! ### Lemmas on the first-occurrence search -/

theorem findPat_none (pat : List Char) :
    ∀ s, numOcc pat s = 0 → findPat pat s = none := by
  intro s
  induction s with
  | nil => intro _; rfl
  | cons c r ih =>
    intro h
    simp only [numOcc] at h
    have h1 : prefixB pat (c :: r) = false := by
      cases hpb : prefixB pat (c :: r) with
      | false => rfl
      | true => rw [hpb] at h; simp at h
    rw [h1] at h
    simp only [findPat, h1, if_false, Bool.false_eq_true]
    rw [ih (by omega)]
    rfl

theorem findPat_at (pat : List Char) (hp : pat ≠ []) :
    ∀ a b : List Char, numOcc pat (a ++ pat) = 1 →
      findPat pat (a ++ pat ++ b) = some a.length := by
  intro a
  induction a with
  | nil =>
    intro b _
    cases pat with
    | nil => exact absurd rfl hp
    | cons p pr =>
      have hpb : prefixB (p :: pr) (p :: (pr ++ b)) = true := by
        simpa [List.cons_append] using prefixB_append (p :: pr) b
      simp [findPat, hpb]
  | cons c a ih =>
    intro b h
    have hpos := numOcc_append_pat_pos pat hp a
    simp only [List.cons_append, List.append_eq, numOcc] at h
    have hpb : prefixB pat (c :: (a ++ pat)) = false := by
      cases hx : prefixB pat (c :: (a ++ pat)) with
      | false => rfl
      | true => simp [hx] at h; omega
    simp only [hpb] at h
    simp at h
    have hpb2 : prefixB pat (c :: (a ++ pat ++ b)) = false := by
      cases hx : prefixB pat (c :: (a ++ pat ++ b)) with
      | false => rfl
      | true =>
        have hle : pat.length ≤ (c :: (a ++ pat)).length := by
          simp [List.length_cons, List.length_append]
          omega
        have h2 := prefixB_of_append_le pat (c :: (a ++ pat)) b
          (by simpa [List.cons_append, List.append_assoc] using hx) hle
        rw [h2] at hpb
        exact absurd hpb (by simp)
    have goal1 : findPat pat ((c :: a) ++ pat ++ b)
        = (findPat pat (a ++ pat ++ b)).map (· + 1) := by
      simp only [List.cons_append, findPat, List.append_eq, hpb2, if_false,
        Bool.false_eq_true]
    rw [goal1, ih b h]
    simp

theorem findPat_some_numOcc (pat : List Char) (hp : pat ≠ []) :
    ∀ s i, findPat pat s = some i →
      1 + numOcc pat (s.drop (i + pat.length)) ≤ numOcc pat s := by
  intro s
  induction s with
  | nil => intro i h; simp [findPat] at h
  | cons c r ih =>
    intro i h
    simp only [findPat] at h
    cases hpb : prefixB pat (c :: r) with
    | true =>
      rw [hpb] at h
      simp only [if_true] at h
      have hi : i = 0 := by
        cases h; rfl
      subst hi
      cases pat with
      | nil => exact absurd rfl hp
      | cons p pr =>
        simp only [numOcc, hpb, if_true, Nat.zero_add, List.length_cons,
          List.drop_succ_cons]
        have := numOcc_drop_le (p :: pr) r pr.length
        omega
    | false =>
      rw [hpb] at h
      simp only [if_false, Bool.false_eq_true, Option.map_eq_some'] at h
      obtain ⟨j, hj, rfl⟩ := h
      have := ih j hj
      simp only [numOcc, hpb, if_false, Bool.false_eq_true, Nat.zero_add]
      have hdrop : (c :: r).drop (j + 1 + pat.length) = r.drop (j + pat.length) := by
        have : j + 1 + pat.length = (j + pat.length) + 1 := by omega
        rw [this, List.drop_succ_cons]
      rw [hdrop]
      omega

/-! ### Lemmas on the substitution scan -/

theorem numOcc_cons_pat (pat : List Char) (hp : pat ≠ []) (c : Char) (a : List Char)
    (h : numOcc pat ((c :: a) ++ pat) = 1) :
    prefixB pat (c :: (a ++ pat)) = false ∧ numOcc pat (a ++ pat) = 1 := by
  have hpos := numOcc_append_pat_pos pat hp a
  simp only [List.cons_append, List.append_eq, numOcc] at h
  have hpb : prefixB pat (c :: (a ++ pat)) = false := by
    cases hx : prefixB pat (c :: (a ++ pat)) with
    | false => rfl
    | true => simp [hx] at h; omega
  refine ⟨hpb, ?_⟩
  simp [hpb] at h
  exact h

theorem prefixB_extend_false (pat : List Char) (c : Char) (a b : List Char)
    (hpb : prefixB pat (c :: (a ++ pat)) = false) :
    prefixB pat (c :: (a ++ pat ++ b)) = false := by
  cases hx : prefixB pat (c :: (a ++ pat ++ b)) with
  | false => rfl
  | true =>
    have hle : pat.length ≤ (c :: (a ++ pat)).length := by
      simp [List.length_cons, List.length_append]
      omega
    have h2 := prefixB_of_append_le pat (c :: (a ++ pat)) b
      (by simpa [List.cons_append, List.append_assoc] using hx) hle
    rw [h2] at hpb
    exact absurd hpb (by simp)

theorem subKeyGo_scan_id (pat repl : List Char) :
    ∀ s, numOcc pat s = 0 → subKeyGo pat repl SubPhase.scan s = s := by
  intro s
  induction s with
  | nil => intro _; rfl
  | cons c r ih =>
    intro h
    have hpb : prefixB pat (c :: r) = false := by
      cases hx : prefixB pat (c :: r) with
      | false => rfl
      | true => simp [numOcc, hx] at h
    have hr : numOcc pat r = 0 := by
      simp [numOcc, hpb] at h
      exact h
    simp [subKeyGo, hpb, ih hr]

theorem subKeyGo_skip (pat repl : List Char) :
    ∀ x y : List Char,
      subKeyGo pat repl (mkSkip x.length) (x ++ y) = subKeyGo pat repl SubPhase.ws y := by
  intro x
  induction x with
  | nil => intro y; rfl
  | cons c x ih =>
    intro y
    simp only [List.length_cons, List.cons_append, mkSkip, subKeyGo]
    exact ih y

theorem subKeyGo_ws_space (pat repl : List Char) (c : Char) (r : List Char)
    (hc : pyIsSpace c = true) :
    subKeyGo pat repl SubPhase.ws (c :: r) = subKeyGo pat repl SubPhase.ws r := by
  simp [subKeyGo, hc]

theorem subKeyGo_ws_word (pat repl : List Char) (c : Char) (r : List Char)
    (hc : pyIsSpace c = false) :
    subKeyGo pat repl SubPhase.ws (c :: r) = subKeyGo pat repl SubPhase.line r := by
  simp [subKeyGo, hc]

theorem subKeyGo_line_run (pat repl : List Char) :
    ∀ v s : List Char, (∀ x ∈ v, ¬ x = '\n') →
      subKeyGo pat repl SubPhase.line (v ++ s) = subKeyGo pat repl SubPhase.line s := by
  intro v
  induction v with
  | nil => intro s _; rfl
  | cons c v ih =>
    intro s hv
    have hc : ¬ c = '\n' := hv c (by simp)
    simp only [List.cons_append, subKeyGo]
    rw [if_neg hc]
    exact ih s (fun x hx => hv x (by simp [hx]))

theorem subKeyGo_line_nl (pat repl : List Char) (rest : List Char)
    (h : prefixB pat ('\n' :: rest) = false) :
    subKeyGo pat repl SubPhase.line ('\n' :: rest)
      = '\n' :: subKeyGo pat repl SubPhase.scan rest := by
  simp [subKeyGo, h]

theorem subKeyGo_scan_at (pat repl : List Char) (hp : pat ≠ []) :
    ∀ a b : List Char, numOcc pat (a ++ pat) = 1 →
      subKeyGo pat repl SubPhase.scan (a ++ pat ++ b)
        = a ++ repl ++ subKeyGo pat repl SubPhase.ws b := by
  intro a
  induction a with
  | nil =>
    intro b _
    cases pat with
    | nil => exact absurd rfl hp
    | cons p pr =>
      have hpb : prefixB (p :: pr) (p :: (pr ++ b)) = true := by
        simpa [List.cons_append] using prefixB_append (p :: pr) b
      simp only [List.nil_append, List.cons_append, List.append_eq, subKeyGo, hpb,
        if_true]
      rw [show (p :: pr).length - 1 = pr.length from by simp]
      rw [subKeyGo_skip]
  | cons c a ih =>
    intro b h
    obtain ⟨hpb, h1⟩ := numOcc_cons_pat pat hp c a h
    have hpb2 := prefixB_extend_false pat c a b hpb
    have step : subKeyGo pat repl SubPhase.scan ((c :: a) ++ pat ++ b)
        = c :: subKeyGo pat repl SubPhase.scan (a ++ pat ++ b) := by
      simp only [List.cons_append, List.append_eq, List.append_assoc, subKeyGo]
      rw [show prefixB pat (c :: (a ++ (pat ++ b))) = false from by
        simpa [List.append_assoc] using hpb2]
      simp [List.append_assoc]
    rw [step, ih b h1]
    simp [List.cons_append, List.append_assoc]

/-- The substitution for one key rewrites one well-formed key line,
provided the pattern occurs exactly there and the value runs to the end
of the line. -/
theorem subKey_rewrites (key val a : List Char) (v0 : Char) (v1 rest : List Char)
    (h1 : numOcc (key ++ str ":") (a ++ (key ++ str ":")) = 1)
    (hv0 : pyIsSpace v0 = false)
    (hv1 : ∀ x ∈ v0 :: v1, ¬ x = '\n')
    (h2 : numOcc (key ++ str ":") ('\n' :: rest) = 0) :
    subKey key val (a ++ (key ++ str ":") ++ (' ' :: v0 :: (v1 ++ '\n' :: rest)))
      = a ++ (key ++ str ": " ++ val) ++ '\n' :: rest := by
  have hp : (key ++ str ":") ≠ [] := by simp [str]
  have hnp : prefixB (key ++ str ":") ('\n' :: rest) = false := by
    cases hx : prefixB (key ++ str ":") ('\n' :: rest) with
    | false => rfl
    | true => simp [numOcc, hx] at h2
  have hrest : numOcc (key ++ str ":") rest = 0 := by
    simp [numOcc, hnp] at h2
    exact h2
  show subKeyGo (key ++ str ":") (key ++ str ": " ++ val) SubPhase.scan _ = _
  rw [subKeyGo_scan_at _ _ hp a _ h1]
  rw [subKeyGo_ws_space _ _ _ _ (by decide)]
  rw [subKeyGo_ws_word _ _ _ _ hv0]
  rw [subKeyGo_line_run _ _ v1 _ (fun x hx => hv1 x (by simp [hx]))]
  rw [subKeyGo_line_nl _ _ _ hnp]
  rw [subKeyGo_scan_id _ _ rest hrest]

/-! ### Lemmas on the replace scan -/

theorem replGo_id (pat repl : List Char) :
    ∀ s, numOcc pat s = 0 → replGo pat repl none s = s := by
  intro s
  induction s with
  | nil => intro _; rfl
  | cons c r ih =>
    intro h
    have hpb : prefixB pat (c :: r) = false := by
      cases hx : prefixB pat (c :: r) with
      | false => rfl
      | true => simp [numOcc, hx] at h
    have hr : numOcc pat r = 0 := by
      simp [numOcc, hpb] at h
      exact h
    simp [replGo, hpb, ih hr]

theorem replGo_skip (pat repl : List Char) :
    ∀ x y : List Char,
      replGo pat repl (mkRSkip x.length) (x ++ y) = replGo pat repl none y := by
  intro x
  induction x with
  | nil => intro y; rfl
  | cons c x ih =>
    intro y
    simp only [List.length_cons, List.cons_append, mkRSkip, replGo]
    exact ih y

theorem replGo_at (pat repl : List Char) (hp : pat ≠ []) :
    ∀ a b : List Char, numOcc pat (a ++ pat) = 1 →
      replGo pat repl none (a ++ pat ++ b) = a ++ repl ++ replGo pat repl none b := by
  intro a
  induction a with
  | nil =>
    intro b _
    cases pat with
    | nil => exact absurd rfl hp
    | cons p pr =>
      have hpb : prefixB (p :: pr) (p :: (pr ++ b)) = true := by
        simpa [List.cons_append] using prefixB_append (p :: pr) b
      simp only [List.nil_append, List.cons_append, List.append_eq, replGo, hpb,
        if_true]
      rw [show (p :: pr).length - 1 = pr.length from by simp]
      rw [replGo_skip]
  | cons c a ih =>
    intro b h
    obtain ⟨hpb, h1⟩ := numOcc_cons_pat pat hp c a h
    have hpb2 := prefixB_extend_false pat c a b hpb
    have step : replGo pat repl none ((c :: a) ++ pat ++ b)
        = c :: replGo pat repl none (a ++ pat ++ b) := by
      simp only [List.cons_append, List.append_eq, List.append_assoc, replGo]
      rw [show prefixB pat (c :: (a ++ (pat ++ b))) = false from by
        simpa [List.append_assoc] using hpb2]
      simp [List.append_assoc]
    rw [step, ih b h1]
    simp [List.cons_append, List.append_assoc]

theorem replaceAll_at (pat repl : List Char) (hp : pat ≠ []) (a b : List Char)
    (h1 : numOcc pat (a ++ pat) = 1) (h2 : numOcc pat b = 0) :
    replaceAll pat repl (a ++ pat ++ b) = a ++ repl ++ b := by
  cases pat with
  | nil => exact absurd rfl hp
  | cons p pr =>
    show replGo (p :: pr) repl none _ = _
    rw [replGo_at (p :: pr) repl hp a b h1]
    rw [replGo_id (p :: pr) repl b h2]

theorem replEmptyIns_nil : ∀ s : List Char, replEmptyIns [] s = s := by
  intro s
  induction s with
  | nil => rfl
  | cons c r ih => simp [replEmptyIns, ih]

theorem replGo_self (pat : List Char) (hp : pat ≠ []) :
    ∀ (n : Nat) (s : List Char), s.length ≤ n → replGo pat pat none s = s := by
  intro n
  induction n with
  | zero =>
    intro s hs
    have : s = [] := List.eq_nil_of_length_eq_zero (Nat.le_zero.mp hs)
    subst this
    rfl
  | succ n ih =>
    intro s hs
    cases s with
    | nil => rfl
    | cons c r =>
      cases hx : prefixB pat (c :: r) with
      | false =>
        have hr : replGo pat pat none r = r := by
          refine ih r ?_
          simp only [List.length_cons] at hs
          omega
        simp [replGo, hx, hr]
      | true =>
        cases pat with
        | nil => exact absurd rfl hp
        | cons p pt =>
          simp only [prefixB, Bool.and_eq_true, beq_iff_eq] at hx
          obtain ⟨rfl, hpt⟩ := hx
          obtain ⟨u, hu, hru⟩ : ∃ u : List Char, u.length ≤ n ∧ r = pt ++ u := by
            refine ⟨r.drop pt.length, ?_, append_drop_of_prefixB pt r hpt⟩
            simp only [List.length_cons] at hs
            simp only [List.length_drop]
            omega
          subst hru
          have hx2 : prefixB (p :: pt) (p :: (pt ++ u)) = true := by
            simpa [List.cons_append] using prefixB_append (p :: pt) u
          simp only [replGo, hx2, if_true]
          rw [show (p :: pt).length - 1 = pt.length from by simp]
          rw [replGo_skip, ih u hu]
          simp

theorem replaceAll_self (pat s : List Char) : replaceAll pat pat s = s := by
  cases pat with
  | nil => exact replEmptyIns_nil s
  | cons p pt =>
    exact replGo_self (p :: pt) (by simp) s.length s (Nat.le_refl _)

/-- `update_frontmatter` with a single key whose pattern does not occur
in the frontmatter leaves the content unchanged. -/
theorem update_frontmatter_noocc (content key val : List Char)
    (h : numOcc (key ++ str ":") (get_frontmatter content) = 0) :
    update_frontmatter content [(key, val)] = content := by
  unfold update_frontmatter
  cases hf : extractFmOpt content with
  | none => rfl
  | some fm =>
    have hfm : get_frontmatter content = fm := by simp [get_frontmatter, hf]
    rw [hfm] at h
    have hsub : subKey key val fm = fm := subKeyGo_scan_id _ _ fm h
    simp only [List.foldl, hsub]
    exact replaceAll_self fm content

/-! ### Word count lemmas -/

theorem wordsGo_length :
    ∀ (s cur : List Char),
      (wordsGo cur s).length
        = wcAux (!cur.isEmpty) s + (if cur.isEmpty then 0 else 1) := by
  intro s
  induction s with
  | nil =>
    intro cur
    cases cur <;> simp [wordsGo, wcAux]
  | cons c r ih =>
    intro cur
    cases hsp : pyIsSpace c with
    | true =>
      cases cur with
      | nil => simp [wordsGo, wcAux, hsp, ih]
      | cons d cur => simp [wordsGo, wcAux, hsp, ih]
    | false =>
      cases cur with
      | nil =>
        simp [wordsGo, wcAux, hsp, ih]
        omega
      | cons d cur => simp [wordsGo, wcAux, hsp, ih]

theorem pySplitW_length (s : List Char) : (pySplitW s).length = wordCount s := by
  simpa [pySplitW, wordCount] using wordsGo_length s []

/-! ### Extraction lemmas -/

theorem extractFm_between (x m z : List Char)
    (h1 : numOcc fmDelim (x ++ fmDelim) = 1)
    (h2 : numOcc fmDelim (m ++ fmDelim) = 1) :
    get_frontmatter (x ++ fmDelim ++ (m ++ fmDelim ++ z)) = m := by
  have hp : fmDelim ≠ [] := by simp [fmDelim, str]
  have hfind1 := findPat_at fmDelim hp x (m ++ fmDelim ++ z) h1
  have hdrop : (x ++ fmDelim ++ (m ++ fmDelim ++ z)).drop (x.length + fmDelim.length)
      = m ++ fmDelim ++ z := by
    rw [show x.length + fmDelim.length = (x ++ fmDelim).length from
      (List.length_append _ _).symm]
    exact List.drop_left _ _
  have hfind2 := findPat_at fmDelim hp m z h2
  have htake : (m ++ fmDelim ++ z).take m.length = m := by
    rw [List.append_assoc]
    exact List.take_left _ _
  simp only [get_frontmatter, extractFmOpt, hfind1, hdrop, hfind2, htake,
    Option.getD_some]

theorem extractFm_single (s : List Char) (h : numOcc fmDelim s ≤ 1) :
    get_frontmatter s = [] := by
  have hp : fmDelim ≠ [] := by simp [fmDelim, str]
  cases hf : findPat fmDelim s with
  | none => simp [get_frontmatter, extractFmOpt, hf]
  | some i =>
    have hocc := findPat_some_numOcc fmDelim hp s i hf
    have hz : numOcc fmDelim (s.drop (i + fmDelim.length)) = 0 := by omega
    simp [get_frontmatter, extractFmOpt, hf, findPat_none fmDelim _ hz]

/-! ### Field splitting lemmas -/

theorem wordsGo_chunk :
    ∀ (x cur s : List Char),
      x.all (fun c => !(pyIsSpace c)) = true →
      wordsGo cur (x ++ s) = wordsGo (x.reverse ++ cur) s := by
  intro x
  induction x with
  | nil => intro cur s _; simp
  | cons c x ih =>
    intro cur s hx
    simp only [List.all_cons, Bool.and_eq_true, Bool.not_eq_true'] at hx
    simp only [List.cons_append, List.append_eq, wordsGo, hx.1,
      Bool.false_eq_true, if_false]
    rw [ih _ s hx.2]
    simp [List.reverse_cons, List.append_assoc]

theorem isEmpty_false_of_ne_nil (l : List Char) (h : l ≠ []) : l.isEmpty = false := by
  cases l with
  | nil => exact absurd rfl h
  | cons a l => rfl

theorem pySplit_two_fields (st p : List Char) (hst : st ≠ []) (hp : p ≠ [])
    (hstw : st.all (fun c => !(pyIsSpace c)) = true)
    (hpw : p.all (fun c => !(pyIsSpace c)) = true) :
    pySplitW (st ++ '\t' :: p) = [st, p] := by
  have hstr : st.reverse.isEmpty = false :=
    isEmpty_false_of_ne_nil _ (by simpa using hst)
  have hpr : p.reverse.isEmpty = false :=
    isEmpty_false_of_ne_nil _ (by simpa using hp)
  unfold pySplitW
  rw [wordsGo_chunk st [] _ hstw]
  simp only [List.append_nil]
  have htab : pyIsSpace '\t' = true := by decide
  simp only [wordsGo, htab, if_true, hstr, Bool.false_eq_true, if_false,
    List.reverse_reverse]
  have h0 : wordsGo [] p = wordsGo p.reverse [] := by
    simpa [List.append_nil] using wordsGo_chunk p [] [] hpw
  rw [h0]
  simp [wordsGo, hpr]

theorem prefixB_stop (t : Char) :
    ∀ pat : List Char, pat.all (fun a => !(a == t)) = true →
    ∀ x y : List Char, prefixB pat (x ++ t :: y) = prefixB pat x := by
  intro pat
  induction pat with
  | nil => intro _ x y; rfl
  | cons a pat ih =>
    intro ht x y
    simp only [List.all_cons, Bool.and_eq_true, Bool.not_eq_true'] at ht
    cases x with
    | nil => simp [prefixB, ht.1]
    | cons b x =>
      simp only [List.cons_append, List.append_eq, prefixB]
      rw [ih ht.2 x y]

/-! ### Claim theorems -/

/-- C4: for every text, `calculate_reading_time` returns exactly the
number of whitespace-separated words of the text, floor-divided by 200,
plus one. -/
theorem reading_time_formula (text : List Char) :
    calculate_reading_time text = wordCount text / 200 + 1 := by
  unfold calculate_reading_time
  rw [pySplitW_length]

/-- C10: for every text, the empty one included, the computed reading
time is at least one. -/
theorem reading_time_ge_one (text : List Char) : 1 ≤ calculate_reading_time text := by
  unfold calculate_reading_time
  omega

/-- C5 counterexample: on a document whose delimited block is not at the
start, `get_frontmatter` still returns that block, although the claim
requires the block to sit at the start of the document (and the empty
string otherwise). -/
theorem frontmatter_not_at_start_cex :
    get_frontmatter (str "body\n---\na: b\n---\n") = str "a: b\n"
    ∧ prefixB fmDelim (str "body\n---\na: b\n---\n") = false := by
  exact ⟨by decide, by decide⟩

/-- C5 (amended): `get_frontmatter` returns the text strictly between
the first occurrence of the delimiter `---` plus newline and the next
occurrence, wherever in the document the first occurrence sits; it
returns the empty string when the document holds at most one occurrence
of the delimiter. -/
theorem get_frontmatter_between_first_delims :
    (∀ x m z : List Char,
      numOcc fmDelim (x ++ fmDelim) = 1 →
      numOcc fmDelim (m ++ fmDelim) = 1 →
      get_frontmatter (x ++ fmDelim ++ (m ++ fmDelim ++ z)) = m)
    ∧ ∀ s : List Char, numOcc fmDelim s ≤ 1 → get_frontmatter s = [] :=
  ⟨extractFm_between, extractFm_single⟩

/-- Witness for the amended C5 at concrete inputs. -/
theorem get_frontmatter_between_first_delims_witness :
    get_frontmatter (str "x\n" ++ fmDelim ++ (str "k: v\n" ++ fmDelim ++ str "tail"))
      = str "k: v\n"
    ∧ get_frontmatter (str "no delimiters here") = [] :=
  ⟨get_frontmatter_between_first_delims.1 (str "x\n") (str "k: v\n") (str "tail")
      (by decide) (by decide),
   get_frontmatter_between_first_delims.2 (str "no delimiters here") (by decide)⟩

/-- C6: a `git diff --cached --name-status` line made of a status field,
a tab and a path is selected exactly when the status starts with `M` and
the path ends with `.mdx`, and the file the hook then processes is that
path. -/
theorem staged_selection (st p : List Char) (hst : st ≠ []) (hp : p ≠ [])
    (hstw : st.all (fun c => !(pyIsSpace c)) = true)
    (hpw : p.all (fun c => !(pyIsSpace c)) = true) :
    lineSelected (st ++ '\t' :: p)
      = (prefixB (str "M") st && suffixB (str ".mdx") p)
    ∧ lineFile (st ++ '\t' :: p) = p := by
  constructor
  · unfold lineSelected
    congr 1
    · cases st with
      | nil => exact absurd rfl hst
      | cons s0 st => simp [str, prefixB]
    · unfold suffixB
      rw [List.reverse_append, List.reverse_cons, List.append_assoc]
      rw [show ['\t'] ++ st.reverse = '\t' :: st.reverse from rfl]
      rw [prefixB_stop '\t' (str ".mdx").reverse (by decide) p.reverse st.reverse]
  · unfold lineFile
    rw [pySplit_two_fields st p hst hp hstw hpw]
    rfl

/-- Witness for C6 at a concrete modified markdown line. -/
theorem staged_selection_witness :
    lineSelected (str "M" ++ '\t' :: str "a.mdx")
      = (prefixB (str "M") (str "M") && suffixB (str ".mdx") (str "a.mdx"))
    ∧ lineFile (str "M" ++ '\t' :: str "a.mdx") = str "a.mdx" :=
  staged_selection (str "M") (str "a.mdx") (by decide) (by decide) (by decide)
    (by decide)

/-- C7: whatever the outcomes of the external process invocations and
the file reads, the try/except of main never lets an exception escape,
and a called-process failure of any invocation is reported with the
printed Error message. -/
theorem main_catches_process_errors (o : Calls) (fs : FS) :
    (∃ r, pyMain o fs = Except.ok r)
    ∧ ∀ m : List Char, mainBody o fs = Except.error (PyExc.cpe m) →
        pyMain o fs = Except.ok (some (str "Error: " ++ m)) := by
  refine ⟨?_, ?_⟩
  · unfold pyMain
    cases mainBody o fs with
    | ok v => exact ⟨none, rfl⟩
    | error e =>
      cases e with
      | cpe m => exact ⟨some (str "Error: " ++ m), rfl⟩
      | other m => exact ⟨some (str "An unexpected error occurred: " ++ m), rfl⟩
  · intro m hm
    unfold pyMain
    rw [hm]

/-- Witness for C7: a failing `git diff` is caught and reported. -/
theorem main_catches_process_errors_witness :
    pyMain failingCalls [] = Except.ok (some (str "Error: " ++ str "boom")) :=
  (main_catches_process_errors failingCalls []).2 (str "boom") rfl

/-- C1 (code bug): this staged file has no identifier key in its
frontmatter, yet running the per-file pipeline leaves its content
completely unchanged: `update_frontmatter` only substitutes existing
occurrences of `id:` and cannot insert the announced fresh identifier. -/
theorem id_missing_not_inserted :
    (dlookup (parseFm (get_frontmatter (str "---\ntitle: x\n---\nbody\n")))
        (str "id")).isSome = false
    ∧ processFile (str "u") (str "t") (str "---\ntitle: x\n---\nbody\n")
        = str "---\ntitle: x\n---\nbody\n" := by
  exact ⟨by decide, by decide⟩

/-- C8 counterexample: the frontmatter `videoid: 5` holds no `id` key
line, yet updating the key `id` rewrites the inside of the `videoid`
line, because the substitution pattern matches the substring `id:`
anywhere, so the content for that key is not left unchanged. -/
theorem update_frontmatter_substring_rewrite_cex :
    dlookup (parseFm (get_frontmatter (str "---\nvideoid: 5\n---\nx\n"))) (str "id")
      = none
    ∧ update_frontmatter (str "---\nvideoid: 5\n---\nx\n") [(str "id", str "9")]
        = str "---\nvideoid: 9\n---\nx\n"
    ∧ str "---\nvideoid: 9\n---\nx\n" ≠ str "---\nvideoid: 5\n---\nx\n" := by
  exact ⟨by decide, by decide, by decide⟩

/-- C8 (amended): `update_frontmatter` never inserts a key: whenever the
update key followed by a colon occurs nowhere in the frontmatter as a
substring (not merely not as a key line), the file is left completely
unchanged. -/
theorem update_frontmatter_no_insert (content key val : List Char)
    (_hk : key ≠ []) (_hkw : key.all isWordChar = true)
    (h : numOcc (key ++ str ":") (get_frontmatter content) = 0) :
    update_frontmatter content [(key, val)] = content :=
  update_frontmatter_noocc content key val h

/-- Witness for the amended C8 at a concrete file. -/
theorem update_frontmatter_no_insert_witness :
    update_frontmatter (str "---\ntitle: x\n---\nb\n") [(str "modDatetime", str "Z")]
      = str "---\ntitle: x\n---\nb\n" :=
  update_frontmatter_no_insert (str "---\ntitle: x\n---\nb\n") (str "modDatetime")
    (str "Z") (by decide) (by decide) (by decide)

/-- C2 counterexample: the modDatetime line of this frontmatter has an
empty value, so the whitespace class of the substitution pattern crosses
the newline and swallows the following draft line: after the hook the
frontmatter holds no draft key at all instead of draft false. -/
theorem draft_first_line_lost_cex :
    dlookup (parseFm (get_frontmatter
        (str "---\nid: 1\nmodDatetime:\ndraft: first\n---\nbody\n"))) (str "draft")
      = some (str "first")
    ∧ processFile (str "u") (str "t")
        (str "---\nid: 1\nmodDatetime:\ndraft: first\n---\nbody\n")
        = str "---\nid: 1\nmodDatetime: \n---\nbody\n"
    ∧ dlookup (parseFm (get_frontmatter
        (str "---\nid: 1\nmodDatetime: \n---\nbody\n"))) (str "draft") = none := by
  exact ⟨by decide, by decide, by decide⟩

/-- C3 counterexample: a processed document with draft false whose
frontmatter holds no modDatetime line: the substitution cannot insert
the key, so the hook leaves the file unchanged and writes no current
time anywhere. -/
theorem modDatetime_absent_not_set_cex :
    dlookup (parseFm (get_frontmatter (str "---\nid: 1\ndraft: false\n---\nb\n")))
        (str "draft") = some (str "false")
    ∧ processFile (str "u") (str "2024-05-05T10:00:00")
        (str "---\nid: 1\ndraft: false\n---\nb\n")
        = str "---\nid: 1\ndraft: false\n---\nb\n"
    ∧ numOcc (str "modDatetime") (str "---\nid: 1\ndraft: false\n---\nb\n") = 0 := by
  exact ⟨by decide, by decide, by decide⟩

/-- C3 (amended): a processed document with draft state `false` whose
frontmatter holds a modDatetime line gets the value of that line
replaced by the current UTC time with the `Z` suffix; a document in any
other draft state never receives the current time: its outcome does not
depend on the clock at all. -/
theorem nondraft_modDatetime_update (a b body uuid now : List Char)
    (v0 : Char) (v1 : List Char)
    (hfm : extractFmOpt
        (fmDelim ++ keyLine (str "modDatetime") a v0 v1 b ++ (fmDelim ++ body))
      = some (keyLine (str "modDatetime") a v0 v1 b))
    (hid : (dlookup (parseFm (keyLine (str "modDatetime") a v0 v1 b))
        (str "id")).isSome = true)
    (hdraft : dlookup (parseFm (keyLine (str "modDatetime") a v0 v1 b))
        (str "draft") = some (str "false"))
    (h1 : numOcc (str "modDatetime" ++ str ":")
        (a ++ (str "modDatetime" ++ str ":")) = 1)
    (hv0 : pyIsSpace v0 = false)
    (hv1 : ∀ x ∈ v0 :: v1, ¬ x = '\n')
    (h2 : numOcc (str "modDatetime" ++ str ":") ('\n' :: b) = 0)
    (h3 : numOcc (keyLine (str "modDatetime") a v0 v1 b)
        (fmDelim ++ keyLine (str "modDatetime") a v0 v1 b) = 1)
    (h4 : numOcc (keyLine (str "modDatetime") a v0 v1 b) (fmDelim ++ body) = 0)
    (h5 : extractFmOpt (fmDelim ++ keyLineSubst (str "modDatetime") (now ++ str "Z") a b
          ++ (fmDelim ++ body))
      = some (keyLineSubst (str "modDatetime") (now ++ str "Z") a b))
    (h6 : numOcc (str "readingTime" ++ str ":")
        (keyLineSubst (str "modDatetime") (now ++ str "Z") a b) = 0) :
    processFile uuid now
        (fmDelim ++ keyLine (str "modDatetime") a v0 v1 b ++ (fmDelim ++ body))
      = fmDelim ++ keyLineSubst (str "modDatetime") (now ++ str "Z") a b
          ++ (fmDelim ++ body)
    ∧ ∀ u c n1 n2 : List Char,
        dlookup (parseFm (get_frontmatter c)) (str "draft") ≠ some (str "false") →
        processFile u n1 c = processFile u n2 c := by
  constructor
  · have hgf : get_frontmatter
        (fmDelim ++ keyLine (str "modDatetime") a v0 v1 b ++ (fmDelim ++ body))
        = keyLine (str "modDatetime") a v0 v1 b := by
      unfold get_frontmatter
      rw [hfm]
      rfl
    have hne : keyLine (str "modDatetime") a v0 v1 b ≠ [] := by
      simp [keyLine]
    have hsub : subKey (str "modDatetime") (now ++ str "Z")
        (keyLine (str "modDatetime") a v0 v1 b)
        = keyLineSubst (str "modDatetime") (now ++ str "Z") a b :=
      subKey_rewrites (str "modDatetime") (now ++ str "Z") a v0 v1 b h1 hv0 hv1 h2
    have hupd : update_frontmatter
        (fmDelim ++ keyLine (str "modDatetime") a v0 v1 b ++ (fmDelim ++ body))
        [(str "modDatetime", now ++ str "Z")]
        = fmDelim ++ keyLineSubst (str "modDatetime") (now ++ str "Z") a b
            ++ (fmDelim ++ body) := by
      unfold update_frontmatter
      simp only [hfm, List.foldl, hsub]
      exact replaceAll_at _ _ hne fmDelim (fmDelim ++ body) h3 h4
    have hpre : preRT uuid now
        (fmDelim ++ keyLine (str "modDatetime") a v0 v1 b ++ (fmDelim ++ body))
        = fmDelim ++ keyLineSubst (str "modDatetime") (now ++ str "Z") a b
            ++ (fmDelim ++ body) := by
      unfold preRT
      rw [hgf]
      simp only [hid, hdraft, if_true]
      exact hupd
    have hrt : rtUpdate
        (fmDelim ++ keyLineSubst (str "modDatetime") (now ++ str "Z") a b
          ++ (fmDelim ++ body))
        = fmDelim ++ keyLineSubst (str "modDatetime") (now ++ str "Z") a b
            ++ (fmDelim ++ body) := by
      unfold rtUpdate update_frontmatter
      simp only [h5, List.foldl]
      rw [show subKey (str "readingTime") _
          (keyLineSubst (str "modDatetime") (now ++ str "Z") a b)
          = keyLineSubst (str "modDatetime") (now ++ str "Z") a b from
        subKeyGo_scan_id _ _ _ h6]
      exact replaceAll_self _ _
    show rtUpdate (preRT uuid now _) = _
    rw [hpre, hrt]
  · intro u c n1 n2 hc
    unfold processFile preRT rtUpdate
    simp only [if_neg hc]

/-- Witness for the amended C3 at a concrete draft-false document. -/
theorem nondraft_modDatetime_update_witness :
    processFile (str "u") (str "2024-01-01T00:00:00")
        (fmDelim ++ keyLine (str "modDatetime") (str "id: 1\n") '3' []
            (str "draft: false\n")
          ++ (fmDelim ++ str "body\n"))
      = fmDelim ++ keyLineSubst (str "modDatetime")
            (str "2024-01-01T00:00:00" ++ str "Z") (str "id: 1\n")
            (str "draft: false\n")
          ++ (fmDelim ++ str "body\n") :=
  (nondraft_modDatetime_update (str "id: 1\n") (str "draft: false\n")
    (str "body\n") (str "u") (str "2024-01-01T00:00:00") '3' []
    (by decide) (by decide) (by decide) (by decide) (by decide) (by decide)
    (by decide) (by decide) (by decide) (by decide) (by decide)).1

/-- C9: the reading time written into the frontmatter is
`calculate_reading_time` of the whole current file content, the
frontmatter block included; and in every draft state the pipeline ends
with the same unconditional readingTime update applied to the entire
content produced by the earlier steps. -/
theorem readingTime_whole_content (a b body uuid now : List Char)
    (v0 : Char) (v1 : List Char)
    (hfm : extractFmOpt
        (fmDelim ++ keyLine (str "readingTime") a v0 v1 b ++ (fmDelim ++ body))
      = some (keyLine (str "readingTime") a v0 v1 b))
    (hid : (dlookup (parseFm (keyLine (str "readingTime") a v0 v1 b))
        (str "id")).isSome = true)
    (hd1 : dlookup (parseFm (keyLine (str "readingTime") a v0 v1 b))
        (str "draft") ≠ some (str "false"))
    (hd2 : dlookup (parseFm (keyLine (str "readingTime") a v0 v1 b))
        (str "draft") ≠ some (str "first"))
    (h1 : numOcc (str "readingTime" ++ str ":")
        (a ++ (str "readingTime" ++ str ":")) = 1)
    (hv0 : pyIsSpace v0 = false)
    (hv1 : ∀ x ∈ v0 :: v1, ¬ x = '\n')
    (h2 : numOcc (str "readingTime" ++ str ":") ('\n' :: b) = 0)
    (h3 : numOcc (keyLine (str "readingTime") a v0 v1 b)
        (fmDelim ++ keyLine (str "readingTime") a v0 v1 b) = 1)
    (h4 : numOcc (keyLine (str "readingTime") a v0 v1 b) (fmDelim ++ body) = 0) :
    processFile uuid now
        (fmDelim ++ keyLine (str "readingTime") a v0 v1 b ++ (fmDelim ++ body))
      = fmDelim ++ keyLineSubst (str "readingTime")
            (natDigits (calculate_reading_time
              (fmDelim ++ keyLine (str "readingTime") a v0 v1 b
                ++ (fmDelim ++ body)))) a b
          ++ (fmDelim ++ body)
    ∧ ∀ u n c : List Char, processFile u n c = rtUpdate (preRT u n c) := by
  constructor
  · have hgf : get_frontmatter
        (fmDelim ++ keyLine (str "readingTime") a v0 v1 b ++ (fmDelim ++ body))
        = keyLine (str "readingTime") a v0 v1 b := by
      unfold get_frontmatter
      rw [hfm]
      rfl
    have hpre : preRT uuid now
        (fmDelim ++ keyLine (str "readingTime") a v0 v1 b ++ (fmDelim ++ body))
        = fmDelim ++ keyLine (str "readingTime") a v0 v1 b ++ (fmDelim ++ body) := by
      unfold preRT
      rw [hgf]
      simp only [hid, if_true, if_neg hd1, if_neg hd2]
    have hne : keyLine (str "readingTime") a v0 v1 b ≠ [] := by
      simp [keyLine]
    have hsub : subKey (str "readingTime")
        (natDigits (calculate_reading_time
          (fmDelim ++ keyLine (str "readingTime") a v0 v1 b ++ (fmDelim ++ body))))
        (keyLine (str "readingTime") a v0 v1 b)
        = keyLineSubst (str "readingTime")
            (natDigits (calculate_reading_time
              (fmDelim ++ keyLine (str "readingTime") a v0 v1 b
                ++ (fmDelim ++ body)))) a b :=
      subKey_rewrites (str "readingTime") _ a v0 v1 b h1 hv0 hv1 h2
    show rtUpdate (preRT uuid now _) = _
    rw [hpre]
    unfold rtUpdate update_frontmatter
    simp only [hfm, List.foldl, hsub]
    exact replaceAll_at _ _ hne fmDelim (fmDelim ++ body) h3 h4
  · intro u n c
    rfl

/-- Witness for C9 at a concrete document with a readingTime line. -/
theorem readingTime_whole_content_witness :
    processFile (str "u") (str "t")
        (fmDelim ++ keyLine (str "readingTime") (str "id: 1\n") '7' []
            (str "draft: draft\n")
          ++ (fmDelim ++ str "one two three\n"))
      = fmDelim ++ keyLineSubst (str "readingTime")
            (natDigits (calculate_reading_time
              (fmDelim ++ keyLine (str "readingTime") (str "id: 1\n") '7' []
                  (str "draft: draft\n")
                ++ (fmDelim ++ str "one two three\n")))) (str "id: 1\n")
            (str "draft: draft\n")
          ++ (fmDelim ++ str "one two three\n") :=
  (readingTime_whole_content (str "id: 1\n") (str "draft: draft\n")
    (str "one two three\n") (str "u") (str "t") '7' []
    (by decide) (by decide) (by decide) (by decide) (by decide) (by decide)
    (by decide) (by decide) (by decide) (by decide)).1

/-- C2 (amended): a processed document whose frontmatter has a draft
line with value `first` and a modDatetime line with a nonempty one-line
value — the substitution patterns occurring only at those lines — gets
its draft line rewritten to `draft: false` and the value of its
modDatetime line cleared. (Without the proviso the whitespace class of
the pattern can cross a line break and erase the draft line, see the
counterexample.) -/
theorem draft_first_transition (a b c body uuid now : List Char)
    (v0 : Char) (v1 : List Char)
    (hfm : extractFmOpt (fmDelim
          ++ keyLine (str "draft") a 'f' (str "irst")
              (keyLine (str "modDatetime") b v0 v1 c)
          ++ (fmDelim ++ body))
      = some (keyLine (str "draft") a 'f' (str "irst")
          (keyLine (str "modDatetime") b v0 v1 c)))
    (hid : (dlookup (parseFm (keyLine (str "draft") a 'f' (str "irst")
        (keyLine (str "modDatetime") b v0 v1 c))) (str "id")).isSome = true)
    (hdraft : dlookup (parseFm (keyLine (str "draft") a 'f' (str "irst")
        (keyLine (str "modDatetime") b v0 v1 c))) (str "draft")
      = some (str "first"))
    (hd1 : numOcc (str "draft" ++ str ":") (a ++ (str "draft" ++ str ":")) = 1)
    (hd2 : numOcc (str "draft" ++ str ":")
        ('\n' :: keyLine (str "modDatetime") b v0 v1 c) = 0)
    (hm1 : numOcc (str "modDatetime" ++ str ":")
        ((a ++ (str "draft" ++ str ": " ++ str "false") ++ '\n' :: b)
          ++ (str "modDatetime" ++ str ":")) = 1)
    (hv0 : pyIsSpace v0 = false)
    (hv1 : ∀ x ∈ v0 :: v1, ¬ x = '\n')
    (hm2 : numOcc (str "modDatetime" ++ str ":") ('\n' :: c) = 0)
    (h3 : numOcc (keyLine (str "draft") a 'f' (str "irst")
          (keyLine (str "modDatetime") b v0 v1 c))
        (fmDelim ++ keyLine (str "draft") a 'f' (str "irst")
          (keyLine (str "modDatetime") b v0 v1 c)) = 1)
    (h4 : numOcc (keyLine (str "draft") a 'f' (str "irst")
        (keyLine (str "modDatetime") b v0 v1 c)) (fmDelim ++ body) = 0)
    (h5 : extractFmOpt (fmDelim
          ++ keyLineSubst (str "modDatetime") (str "")
              (a ++ (str "draft" ++ str ": " ++ str "false") ++ '\n' :: b) c
          ++ (fmDelim ++ body))
      = some (keyLineSubst (str "modDatetime") (str "")
          (a ++ (str "draft" ++ str ": " ++ str "false") ++ '\n' :: b) c))
    (h6 : numOcc (str "readingTime" ++ str ":")
        (keyLineSubst (str "modDatetime") (str "")
          (a ++ (str "draft" ++ str ": " ++ str "false") ++ '\n' :: b) c) = 0) :
    processFile uuid now
        (fmDelim
          ++ keyLine (str "draft") a 'f' (str "irst")
              (keyLine (str "modDatetime") b v0 v1 c)
          ++ (fmDelim ++ body))
      = fmDelim
          ++ keyLineSubst (str "modDatetime") (str "")
              (a ++ (str "draft" ++ str ": " ++ str "false") ++ '\n' :: b) c
          ++ (fmDelim ++ body) := by
  have hgf : get_frontmatter (fmDelim
        ++ keyLine (str "draft") a 'f' (str "irst")
            (keyLine (str "modDatetime") b v0 v1 c)
        ++ (fmDelim ++ body))
      = keyLine (str "draft") a 'f' (str "irst")
          (keyLine (str "modDatetime") b v0 v1 c) := by
    unfold get_frontmatter
    rw [hfm]
    rfl
  have hne : keyLine (str "draft") a 'f' (str "irst")
      (keyLine (str "modDatetime") b v0 v1 c) ≠ [] := by
    simp [keyLine]
  have hshape : a ++ (str "draft" ++ str ": " ++ str "false")
        ++ '\n' :: keyLine (str "modDatetime") b v0 v1 c
      = keyLine (str "modDatetime")
          (a ++ (str "draft" ++ str ": " ++ str "false") ++ '\n' :: b) v0 v1 c := by
    simp [keyLine, List.append_assoc, List.cons_append]
  have hsub1 : subKey (str "draft") (str "false")
      (keyLine (str "draft") a 'f' (str "irst")
        (keyLine (str "modDatetime") b v0 v1 c))
      = keyLine (str "modDatetime")
          (a ++ (str "draft" ++ str ": " ++ str "false") ++ '\n' :: b) v0 v1 c := by
    have e1 := subKey_rewrites (str "draft") (str "false") a 'f' (str "irst")
      (keyLine (str "modDatetime") b v0 v1 c) hd1 (by decide) (by decide) hd2
    exact e1.trans hshape
  have hsub2 : subKey (str "modDatetime") (str "")
      (keyLine (str "modDatetime")
        (a ++ (str "draft" ++ str ": " ++ str "false") ++ '\n' :: b) v0 v1 c)
      = keyLineSubst (str "modDatetime") (str "")
          (a ++ (str "draft" ++ str ": " ++ str "false") ++ '\n' :: b) c :=
    subKey_rewrites (str "modDatetime") (str "") _ v0 v1 c hm1 hv0 hv1 hm2
  have hupd : update_frontmatter
      (fmDelim
        ++ keyLine (str "draft") a 'f' (str "irst")
            (keyLine (str "modDatetime") b v0 v1 c)
        ++ (fmDelim ++ body))
      [(str "draft", str "false"), (str "modDatetime", str "")]
      = fmDelim
          ++ keyLineSubst (str "modDatetime") (str "")
              (a ++ (str "draft" ++ str ": " ++ str "false") ++ '\n' :: b) c
          ++ (fmDelim ++ body) := by
    unfold update_frontmatter
    simp only [hfm, List.foldl, hsub1, hsub2]
    exact replaceAll_at _ _ hne fmDelim (fmDelim ++ body) h3 h4
  have hnf : ¬ (dlookup (parseFm (keyLine (str "draft") a 'f' (str "irst")
      (keyLine (str "modDatetime") b v0 v1 c))) (str "draft")
      = some (str "false")) := by
    rw [hdraft]
    decide
  have hpre : preRT uuid now
      (fmDelim
        ++ keyLine (str "draft") a 'f' (str "irst")
            (keyLine (str "modDatetime") b v0 v1 c)
        ++ (fmDelim ++ body))
      = fmDelim
          ++ keyLineSubst (str "modDatetime") (str "")
              (a ++ (str "draft" ++ str ": " ++ str "false") ++ '\n' :: b) c
          ++ (fmDelim ++ body) := by
    unfold preRT
    rw [hgf]
    simp only [hid, if_true, if_neg hnf, hdraft]
    exact hupd
  have hrt : rtUpdate
      (fmDelim
        ++ keyLineSubst (str "modDatetime") (str "")
            (a ++ (str "draft" ++ str ": " ++ str "false") ++ '\n' :: b) c
        ++ (fmDelim ++ body))
      = fmDelim
          ++ keyLineSubst (str "modDatetime") (str "")
              (a ++ (str "draft" ++ str ": " ++ str "false") ++ '\n' :: b) c
          ++ (fmDelim ++ body) := by
    unfold rtUpdate update_frontmatter
    simp only [h5, List.foldl]
    rw [show subKey (str "readingTime") _
        (keyLineSubst (str "modDatetime") (str "")
          (a ++ (str "draft" ++ str ": " ++ str "false") ++ '\n' :: b) c)
        = keyLineSubst (str "modDatetime") (str "")
            (a ++ (str "draft" ++ str ": " ++ str "false") ++ '\n' :: b) c from
      subKeyGo_scan_id _ _ _ h6]
    exact replaceAll_self _ _
  show rtUpdate (preRT uuid now _) = _
  rw [hpre, hrt]

/-- Witness for the amended C2 at a concrete draft-first document. -/
theorem draft_first_transition_witness :
    processFile (str "u") (str "t")
        (fmDelim
          ++ keyLine (str "draft") (str "id: 1\n") 'f' (str "irst")
              (keyLine (str "modDatetime") [] '3' [] [])
          ++ (fmDelim ++ str "body\n"))
      = fmDelim
          ++ keyLineSubst (str "modDatetime") (str "")
              (str "id: 1\n" ++ (str "draft" ++ str ": " ++ str "false")
                ++ '\n' :: []) []
          ++ (fmDelim ++ str "body\n") :=
  draft_first_transition (str "id: 1\n") [] [] (str "body\n") (str "u") (str "t")
    '3' [] (by decide) (by decide) (by decide) (by decide) (by decide)
    (by decide) (by decide) (by decide) (by decide) (by decide) (by decide)
    (by decide) (by decide)
